import Mathlib

/-!
Verification development for the vixcpp p2p_http control surface
(src/src/P2PHttp.cpp and the headers under src/include/vix/p2p_http).

The C++ module is embedded shallowly: each source function becomes a Lean
definition over explicit state. Machine integers of the source are modelled
with Nat / Int (no counter in this module is ever near an overflow boundary
and none of the claims concern wrap-around). Steady-clock instants are
modelled as integer millisecond counts, with 0 meaning "never set", matching
the time_since_epoch().count() != 0 tests of the source.
-/

namespace P2PHttp

/-- Minimal JSON value model for the payloads built with vix::json J::obj,
J::array and scalar tokens in P2PHttp.cpp. -/
inductive JVal where
  | jbool (b : Bool)
  | jint (n : Int)
  | jstr (s : String)
  | jarr (xs : List JVal)
  | jobj (fields : List (String × JVal))

/-- Field lookup in a serialized JSON object (none on scalars / arrays). -/
def JVal.getField (j : JVal) (k : String) : Option JVal :=
  match j with
  | .jobj fields => fields.lookup k
  | _ => none

/-! ## LogBuffer (P2PHttp.cpp lines 46-74)

`class LogBuffer` holds a deque of lines bounded by `cap_`:
`push` pops the front when `size() >= cap_` and then appends;
`dump` concatenates every stored line followed by a newline.
The mutex only serializes access and does not affect the sequential
semantics, so the embedding is a pure state transformer. -/

structure LogBuffer where
  cap : Nat
  lines : List String

/-- `LogBuffer::LogBuffer(cap)`: fresh empty buffer. -/
def LogBuffer.empty (cap : Nat) : LogBuffer := ⟨cap, []⟩

/-- `LogBuffer::push`: FIFO-evict one line when full, then append. -/
def LogBuffer.push (b : LogBuffer) (line : String) : LogBuffer :=
  let l := if b.lines.length ≥ b.cap then b.lines.tail else b.lines
  ⟨b.cap, l ++ [line]⟩

/-- `LogBuffer::dump`: every buffered line, in order, each followed by a
newline. -/
def LogBuffer.dump (b : LogBuffer) : String :=
  String.join (b.lines.map (fun l => l ++ "\n"))

/-- A whole sequence of pushes, oldest first. -/
def LogBuffer.pushAll (b : LogBuffer) (xs : List String) : LogBuffer :=
  xs.foldl LogBuffer.push b

/-- After any sequence of pushes into a buffer whose current content fits
the capacity, the buffer holds exactly the last `cap` elements of the
concatenation of old content and pushed lines. -/
theorem LogBuffer.pushAll_lines (cap : Nat) (hc : 0 < cap) :
    ∀ (xs l : List String), l.length ≤ cap →
      (LogBuffer.pushAll ⟨cap, l⟩ xs).lines = (l ++ xs).drop ((l ++ xs).length - cap)
  | [], l, hl => by
      simp [LogBuffer.pushAll, Nat.sub_eq_zero_of_le hl]
  | x :: xs, l, hl => by
      by_cases h : l.length ≥ cap
      · have hcap : l.length = cap := le_antisymm hl h
        obtain ⟨a, t, rfl⟩ : ∃ a t, l = a :: t := by
          cases l with
          | nil => exact absurd hcap (by simpa using hc.ne)
          | cons a t => exact ⟨a, t, rfl⟩
        have ht : t.length + 1 = cap := by simpa using hcap
        have step : LogBuffer.pushAll ⟨cap, a :: t⟩ (x :: xs)
            = LogBuffer.pushAll ⟨cap, t ++ [x]⟩ xs := by
          simp only [LogBuffer.pushAll, LogBuffer.push, List.foldl_cons]
          rw [if_pos (show (a :: t).length ≥ cap by omega), List.tail_cons]
        rw [step, LogBuffer.pushAll_lines cap hc xs (t ++ [x]) (by simp; omega)]
        have e1 : (t ++ [x]) ++ xs = t ++ x :: xs := by simp
        rw [e1]
        have e2 : (t ++ x :: xs).length - cap = xs.length := by
          simp only [List.length_append, List.length_cons]; omega
        have e3 : ((a :: t) ++ x :: xs).length - cap = xs.length + 1 := by
          simp only [List.length_append, List.length_cons]; omega
        rw [e2, e3, List.cons_append, List.drop_succ_cons]
      · have step : LogBuffer.pushAll ⟨cap, l⟩ (x :: xs)
            = LogBuffer.pushAll ⟨cap, l ++ [x]⟩ xs := by
          simp [LogBuffer.pushAll, LogBuffer.push, h]
        rw [step, LogBuffer.pushAll_lines cap hc xs (l ++ [x]) (by simp; omega)]
        simp

/-- C3: for every sequence of n pushes into a LiveLogBuffer of (positive)
capacity cap, dump() returns exactly the most recent min(n, cap) pushed
lines, in insertion order, each terminated by a line break; after 0 pushes
dump() is the empty string, and the number of buffered lines never exceeds
cap. -/
theorem logbuffer_bounded_fifo (cap n : Nat) (xs : List String) (hc : 0 < cap)
    (hn : xs.length = n) :
    ((LogBuffer.empty cap).pushAll xs).lines = xs.drop (n - cap) ∧
    ((LogBuffer.empty cap).pushAll xs).lines.length = min n cap ∧
    ((LogBuffer.empty cap).pushAll xs).dump
      = String.join ((xs.drop (n - cap)).map (fun l => l ++ "\n")) ∧
    (LogBuffer.empty cap).dump = "" ∧
    ((LogBuffer.empty cap).pushAll xs).lines.length ≤ cap := by
  have hlines : ((LogBuffer.empty cap).pushAll xs).lines = xs.drop (n - cap) := by
    have := LogBuffer.pushAll_lines cap hc xs [] (by simp)
    simpa [LogBuffer.empty, hn] using this
  refine ⟨hlines, ?_, ?_, rfl, ?_⟩
  · rw [hlines, List.length_drop]; omega
  · rw [LogBuffer.dump, hlines]
  · rw [hlines, List.length_drop]; omega

/-- Witness for C3 at cap = 2 and pushes a, b, c. -/
theorem logbuffer_bounded_fifo_witness :
    0 < 2 ∧ (("a" : String) :: "b" :: "c" :: []).length = 3 ∧
      ((LogBuffer.empty 2).pushAll ["a", "b", "c"]).lines = ["a", "b", "c"].drop (3 - 2) :=
  ⟨by decide, rfl, (logbuffer_bounded_fifo 2 3 ["a", "b", "c"] (by decide) rfl).1⟩

/-! ## Runtime stats sampling (P2PHttp.cpp lines 76-93 and 207-248)

`vix::p2p::RuntimeStats` is external to this repository; its field set is
exactly the one read by `stats_line_plain` and the change test of the
sampling loop: four top-level counters plus a nested connect group of five
counters. -/

structure ConnectStats where
  connect_attempts : Nat
  connect_deduped : Nat
  connect_failures : Nat
  backoff_skips : Nat
  tracked_endpoints : Nat
deriving DecidableEq

structure RuntimeStats where
  peers_total : Nat
  peers_connected : Nat
  handshakes_started : Nat
  handshakes_completed : Nat
  connect : ConnectStats
deriving DecidableEq

/-- `stats_line_plain` (lines 79-93): the human-readable counter line. -/
def stats_line_plain (st : RuntimeStats) : String :=
  "peers_total=" ++ toString st.peers_total
    ++ " peers_connected=" ++ toString st.peers_connected
    ++ " handshakes_started=" ++ toString st.handshakes_started
    ++ " handshakes_completed=" ++ toString st.handshakes_completed
    ++ " connect_attempts=" ++ toString st.connect.connect_attempts
    ++ " connect_deduped=" ++ toString st.connect.connect_deduped
    ++ " connect_failures=" ++ toString st.connect.connect_failures
    ++ " backoff_skips=" ++ toString st.connect.backoff_skips
    ++ " tracked_endpoints=" ++ toString st.connect.tracked_endpoints

/-- The nine-field change test of the sampling loop (lines 226-236). -/
def statsChanged (st last : RuntimeStats) : Bool :=
  (st.peers_total ≠ last.peers_total)
    || (st.peers_connected ≠ last.peers_connected)
    || (st.handshakes_started ≠ last.handshakes_started)
    || (st.handshakes_completed ≠ last.handshakes_completed)
    || (st.connect.connect_attempts ≠ last.connect.connect_attempts)
    || (st.connect.connect_deduped ≠ last.connect.connect_deduped)
    || (st.connect.connect_failures ≠ last.connect.connect_failures)
    || (st.connect.backoff_skips ≠ last.connect.backoff_skips)
    || (st.connect.tracked_endpoints ≠ last.connect.tracked_endpoints)

/-- One iteration of the sampling loop body (lines 224-244): given the fresh
sample `st`, the last emitted snapshot `last` and the log buffer, push one
formatted line and update `last` exactly when the change test fires. -/
def tickStep (st last : RuntimeStats) (buf : LogBuffer) : LogBuffer × RuntimeStats :=
  if statsChanged st last then
    (buf.push ("[p2p] " ++ stats_line_plain st), st)
  else
    (buf, last)

/-- The sampling loop (lines 218-246) over an explicit trace: each entry
holds the value of the stop flag observed at the top of the iteration
(`while (!g_tick_stop.load())`) together with the sample that iteration
would read. A `true` flag makes the loop exit at once. -/
def runLoop : List (Bool × RuntimeStats) → RuntimeStats → LogBuffer → LogBuffer
  | [], _, buf => buf
  | (stopSeen, st) :: rest, last, buf =>
    if stopSeen then buf
    else
      let r := tickStep st last buf
      runLoop rest r.2 r.1

/-- The compare-exchange guard on `g_tick_started` (lines 207-218): one
registerRoutes call, given whether its live-log condition holds
(`opt.enable_live_logs && opt.enable_logs`) and the current flag, returns
the new flag and whether this call spawns the sampling thread. Because the
source uses an atomic compare_exchange_strong, every concurrent execution
is a linearization, i.e. some sequence of these atomic steps. -/
def startMonitorStep (enabled flag : Bool) : Bool × Bool :=
  if enabled && !flag then (true, true) else (flag, false)

/-- A sequence of registerRoutes calls (their live-log conditions, in
linearization order): final flag and number of sampling threads spawned. -/
def runStartCalls : List Bool → Bool → Bool × Nat
  | [], flag => (flag, 0)
  | e :: rest, flag =>
    let s := startMonitorStep e flag
    let r := runStartCalls rest s.1
    (r.1, (if s.2 then 1 else 0) + r.2)

/-- A concrete all-zero stats sample, used by concrete evaluations. -/
def statsZero : RuntimeStats := ⟨0, 0, 0, 0, ⟨0, 0, 0, 0, 0⟩⟩

/-- C4: in each iteration of the sampling loop, a line is pushed iff the
fresh sample differs from the last emitted snapshot in at least one of the
nine counters; exactly when a line is emitted the last-emitted snapshot is
updated to the new sample; identical snapshots emit nothing and any
difference emits exactly one push. -/
theorem tick_emits_iff_changed (st last : RuntimeStats) (buf : LogBuffer) :
    (statsChanged st last = true ↔
      (st.peers_total ≠ last.peers_total ∨
       st.peers_connected ≠ last.peers_connected ∨
       st.handshakes_started ≠ last.handshakes_started ∨
       st.handshakes_completed ≠ last.handshakes_completed ∨
       st.connect.connect_attempts ≠ last.connect.connect_attempts ∨
       st.connect.connect_deduped ≠ last.connect.connect_deduped ∨
       st.connect.connect_failures ≠ last.connect.connect_failures ∨
       st.connect.backoff_skips ≠ last.connect.backoff_skips ∨
       st.connect.tracked_endpoints ≠ last.connect.tracked_endpoints)) ∧
    (statsChanged st last = true ↔ st ≠ last) ∧
    (statsChanged st last = true →
      tickStep st last buf = (buf.push ("[p2p] " ++ stats_line_plain st), st)) ∧
    (statsChanged st last = false → tickStep st last buf = (buf, last)) ∧
    (st = last → tickStep st last buf = (buf, last)) := by
  have hiff : statsChanged st last = true ↔
      (st.peers_total ≠ last.peers_total ∨
       st.peers_connected ≠ last.peers_connected ∨
       st.handshakes_started ≠ last.handshakes_started ∨
       st.handshakes_completed ≠ last.handshakes_completed ∨
       st.connect.connect_attempts ≠ last.connect.connect_attempts ∨
       st.connect.connect_deduped ≠ last.connect.connect_deduped ∨
       st.connect.connect_failures ≠ last.connect.connect_failures ∨
       st.connect.backoff_skips ≠ last.connect.backoff_skips ∨
       st.connect.tracked_endpoints ≠ last.connect.tracked_endpoints) := by
    simp [statsChanged, or_assoc]
  have hne : statsChanged st last = true ↔ st ≠ last := by
    rw [hiff]
    obtain ⟨st1, st2, st3, st4, ⟨c1, c2, c3, c4, c5⟩⟩ := st
    obtain ⟨la1, la2, la3, la4, ⟨d1, d2, d3, d4, d5⟩⟩ := last
    simp only [RuntimeStats.mk.injEq, ConnectStats.mk.injEq, ne_eq]
    tauto
  refine ⟨hiff, hne, ?_, ?_, ?_⟩
  · intro h; simp [tickStep, h]
  · intro h; simp [tickStep, h]
  · rintro rfl
    have : statsChanged st st = false := by simp [statsChanged]
    simp [tickStep, this]

/-- Witness for C4: a sample differing only in peers_total emits one push
and updates the last-emitted snapshot. -/
theorem tick_emits_iff_changed_witness :
    statsChanged ⟨1, 0, 0, 0, ⟨0, 0, 0, 0, 0⟩⟩ statsZero = true ∧
    tickStep ⟨1, 0, 0, 0, ⟨0, 0, 0, 0, 0⟩⟩ statsZero (LogBuffer.empty 800)
      = ((LogBuffer.empty 800).push
          ("[p2p] " ++ stats_line_plain ⟨1, 0, 0, 0, ⟨0, 0, 0, 0, 0⟩⟩),
         ⟨1, 0, 0, 0, ⟨0, 0, 0, 0, 0⟩⟩) :=
  ⟨by decide,
   (tick_emits_iff_changed ⟨1, 0, 0, 0, ⟨0, 0, 0, 0, 0⟩⟩ statsZero
      (LogBuffer.empty 800)).2.2.1 (by decide)⟩

/-- On an already-set started flag, no later call ever spawns. -/
theorem runStartCalls_flag_set (calls : List Bool) :
    runStartCalls calls true = (true, 0) := by
  induction calls with
  | nil => rfl
  | cons e rest ih => simp [runStartCalls, startMonitorStep, ih]

/-- C5: across any linearization of registerRoutes calls starting from an
unset flag, at most one call spawns the sampling thread, and exactly one
does as soon as some call has the live-log condition enabled. -/
theorem monitor_started_at_most_once (calls : List Bool) :
    (runStartCalls calls false).2 ≤ 1 ∧
    ((∃ e ∈ calls, e = true) → (runStartCalls calls false).2 = 1) := by
  induction calls with
  | nil => exact ⟨by simp [runStartCalls], by simp⟩
  | cons e rest ih =>
    cases e with
    | true =>
      have : runStartCalls (true :: rest) false = (true, 1) := by
        simp [runStartCalls, startMonitorStep, runStartCalls_flag_set rest]
      rw [this]
      exact ⟨le_refl 1, fun _ => rfl⟩
    | false =>
      have hstep : runStartCalls (false :: rest) false
          = ((runStartCalls rest false).1, (runStartCalls rest false).2) := by
        simp [runStartCalls, startMonitorStep]
      rw [hstep]
      refine ⟨ih.1, ?_⟩
      rintro ⟨x, hx, rfl⟩
      rcases List.mem_cons.mp hx with h | h
      · exact absurd h.symm (by simp)
      · exact ih.2 ⟨true, h, rfl⟩

/-- Witness for C5: two qualifying calls spawn exactly one loop. -/
theorem monitor_started_at_most_once_witness :
    (runStartCalls [true, true] false).2 = 1 :=
  (monitor_started_at_most_once [true, true]).2 ⟨true, by decide, rfl⟩

/-- C8: once every stop-flag observation from iteration k onward reads
true, the loop behaves exactly as if the trace ended after the first k
iterations: it exits at the top of the first iteration that observes the
flag, and no further lines are pushed. -/
theorem stop_halts_loop (trace : List (Bool × RuntimeStats)) (last : RuntimeStats)
    (buf : LogBuffer) (k : Nat)
    (hstop : ∀ p ∈ trace.drop k, p.1 = true) :
    runLoop trace last buf = runLoop (trace.take k) last buf := by
  induction trace generalizing k last buf with
  | nil => simp
  | cons hd rest ih =>
    obtain ⟨s, st⟩ := hd
    cases k with
    | zero =>
      have hs : s = true := hstop (s, st) (by simp)
      subst hs
      simp [runLoop]
    | succ k =>
      by_cases hs : s = true
      · subst hs
        simp [runLoop, List.take_succ_cons]
      · have hs' : s = false := by simpa using hs
        subst hs'
        simp only [runLoop, List.take_succ_cons, if_neg (by simp : ¬ (false = true))]
        exact ih _ _ k (fun p hp => hstop p (by simpa using hp))

/-- Witness for C8: a two-iteration trace whose second observation reads
the stop flag as set. -/
theorem stop_halts_loop_witness :
    (∀ p ∈ ([(false, statsZero), (true, statsZero)].drop 1), p.1 = true) ∧
    runLoop [(false, statsZero), (true, statsZero)] statsZero (LogBuffer.empty 800)
      = runLoop ([(false, statsZero), (true, statsZero)].take 1) statsZero
          (LogBuffer.empty 800) :=
  ⟨by decide, stop_halts_loop _ _ _ 1 (by decide)⟩

/-! ## join_prefix (P2PHttp.cpp lines 95-114)

The path joiner is embedded over `List Char` (C++ std::string is a char
sequence): the leading-slash insertion mirrors
`if (!s.empty() && s.front() != '/') s.insert(s.begin(), '/')` and the
trailing-slash loop mirrors `while (s.size() > 1 && s.back() == '/')
s.pop_back()`. -/

/-- The front-of-string slash insertion applied to base and path. -/
def ensureLeadSlash (s : List Char) : List Char :=
  if s ≠ [] ∧ s.head? ≠ some '/' then '/' :: s else s

/-- The pop_back loop removing trailing slashes while the length exceeds
one. -/
def stripTrailSlashes (s : List Char) : List Char :=
  if h : 1 < s.length ∧ s.getLast? = some '/' then
    stripTrailSlashes s.dropLast
  else s
termination_by s.length
decreasing_by simp only [List.length_dropLast]; omega

/-- `join_prefix`: normalize both segments, then combine with the three
terminal cases of the source. -/
def join_prefix_path (base path : List Char) : List Char :=
  let b := stripTrailSlashes (ensureLeadSlash base)
  let p := stripTrailSlashes (ensureLeadSlash path)
  if b = [] then (if p = [] then ['/'] else p)
  else if p = [] ∨ p = ['/'] then b
  else b ++ p

theorem stripTrailSlashes_eq_nil_iff (s : List Char) :
    stripTrailSlashes s = [] ↔ s = [] := by
  induction s using stripTrailSlashes.induct with
  | case1 s h ih =>
    rw [stripTrailSlashes, dif_pos h, ih]
    constructor
    · intro hd
      have := congrArg List.length hd
      simp only [List.length_dropLast, List.length_nil] at this
      omega
    · rintro rfl; simp at h
  | case2 s h => rw [stripTrailSlashes, dif_neg h]

theorem stripTrailSlashes_head? (s : List Char) :
    (stripTrailSlashes s).head? = s.head? := by
  induction s using stripTrailSlashes.induct with
  | case1 s h ih =>
    rw [stripTrailSlashes, dif_pos h, ih]
    obtain ⟨hl, _⟩ := h
    match s, hl with
    | a :: b :: t, _ => simp [List.dropLast]
  | case2 s h => rw [stripTrailSlashes, dif_neg h]

theorem stripTrailSlashes_no_trailing (s : List Char) :
    ¬(1 < (stripTrailSlashes s).length ∧ (stripTrailSlashes s).getLast? = some '/') := by
  induction s using stripTrailSlashes.induct with
  | case1 s h ih => rw [stripTrailSlashes, dif_pos h]; exact ih
  | case2 s h => rw [stripTrailSlashes, dif_neg h]; exact h

theorem ensureLeadSlash_eq_nil_iff (s : List Char) :
    ensureLeadSlash s = [] ↔ s = [] := by
  rw [ensureLeadSlash]
  split
  · rename_i h
    simp [h.1]
  · rfl

theorem ensureLeadSlash_head? (s : List Char) (hs : s ≠ []) :
    (ensureLeadSlash s).head? = some '/' := by
  rw [ensureLeadSlash]
  split
  · simp
  · rename_i hcond
    rw [not_and_or] at hcond
    rcases hcond with h | h
    · exact absurd hs (by simpa using h)
    · simpa using h

/-- A normalized nonempty segment starts with a slash. -/
theorem normSeg_head (s : List Char) (hs : s ≠ []) :
    (stripTrailSlashes (ensureLeadSlash s)).head? = some '/' := by
  rw [stripTrailSlashes_head?]
  exact ensureLeadSlash_head? s hs

/-- A normalized segment ending in a slash is exactly the one-char slash. -/
theorem normSeg_trailing (s : List Char)
    (h : (stripTrailSlashes (ensureLeadSlash s)).getLast? = some '/') :
    stripTrailSlashes (ensureLeadSlash s) = ['/'] := by
  have hno := stripTrailSlashes_no_trailing (ensureLeadSlash s)
  rw [not_and_or] at hno
  rcases hno with hlen | hlast
  · have hne : stripTrailSlashes (ensureLeadSlash s) ≠ [] := by
      intro hnil; rw [hnil] at h; simp at h
    match hv : stripTrailSlashes (ensureLeadSlash s), hne, hlen with
    | [a], _, _ =>
      rw [hv] at h
      simp only [List.getLast?_singleton, Option.some.injEq] at h
      rw [h]
    | a :: b :: t, _, hlen => simp at hlen
  · exact absurd h hlast

/-- C9: for every pair of base and path character strings, join_prefix
returns a non-empty string beginning with a slash, the result ends in a
slash only when it is exactly the one-character string slash, and empty
base with empty path yields the one-character slash string. -/
theorem join_prefix_path_shape (base path : List Char) :
    join_prefix_path base path ≠ [] ∧
    (join_prefix_path base path).head? = some '/' ∧
    ((join_prefix_path base path).getLast? = some '/' →
      join_prefix_path base path = ['/']) ∧
    join_prefix_path [] [] = ['/'] := by
  have hlast : join_prefix_path [] [] = ['/'] := by
    have h1 : ensureLeadSlash [] = [] := by rw [ensureLeadSlash]; simp
    have h2 : stripTrailSlashes [] = [] := by rw [stripTrailSlashes]; simp
    rw [join_prefix_path]
    simp [h1, h2]
  rw [join_prefix_path]
  split
  · rename_i hb
    split
    · exact ⟨by simp, by simp, fun _ => rfl, hlast⟩
    · rename_i hp
      have hpath : path ≠ [] := by
        intro hnil
        exact hp (by rw [hnil, stripTrailSlashes_eq_nil_iff, ensureLeadSlash_eq_nil_iff])
      exact ⟨hp, normSeg_head path hpath, normSeg_trailing path, hlast⟩
  · rename_i hb
    have hbase : base ≠ [] := by
      intro hnil
      exact hb (by rw [hnil, stripTrailSlashes_eq_nil_iff, ensureLeadSlash_eq_nil_iff])
    split
    · exact ⟨hb, normSeg_head base hbase, normSeg_trailing base, hlast⟩
    · rename_i hp
      rw [not_or] at hp
      obtain ⟨hpnil, hpslash⟩ := hp
      refine ⟨by simp [hpnil], ?_, ?_, hlast⟩
      · rw [List.head?_append_of_ne_nil _ hb]
        exact normSeg_head base hbase
      · intro hsl
        rw [List.getLast?_append_of_ne_nil _ hpnil] at hsl
        exact absurd (normSeg_trailing path hsl) hpslash

/-- Witness for C9 at empty base and path: the one-character slash result,
obtained through the trailing-slash conjunct of the theorem. -/
theorem join_prefix_path_shape_witness :
    join_prefix_path [] [] = ['/'] := by
  have h := join_prefix_path_shape [] []
  exact h.2.2.1 (by rw [h.2.2.2]; rfl)

/-! ## Options, authorization and route registration
(P2PHttpOptions.hpp, RouteOptions.hpp, P2PHttp.cpp lines 117-196 and
199-527)

The HTTP request is opaque to this module, and a response is the data the
module writes: status, JSON body, headers. Both authentication hook styles
receive the request and may write to the response before answering a
boolean, so both are embedded as `Request → ResponseState →
Bool × ResponseState` (the context style wraps the same pair behind
`vix::mw::Context`). The `log_sink` member of P2PHttpOptions is never read
anywhere in P2PHttp.cpp and is omitted. -/

structure Request

structure ResponseState where
  status : Nat := 200
  body : Option JVal := none
  headers : List (String × String) := []

def AuthHookCtx : Type := Request → ResponseState → Bool × ResponseState

def AuthHookLegacy : Type := Request → ResponseState → Bool × ResponseState

/-- `P2PHttpOptions` (P2PHttpOptions.hpp lines 40-71); the C++ member
`prefix` is named `prefix_str` here. Null std::function members are the
`none` case. -/
structure P2PHttpOptions where
  prefix_str : List Char := ['/', 'p', '2', 'p']
  enable_ping : Bool := true
  enable_status : Bool := true
  enable_logs : Bool := true
  enable_live_logs : Bool := true
  stats_every_ms : Int := 1000
  enable_peers : Bool := true
  auth_ctx : Option AuthHookCtx := none
  auth_legacy : Option AuthHookLegacy := none

/-- `RouteOptions` (RouteOptions.hpp lines 26-34). -/
structure RouteOptions where
  heavy : Bool := false
  require_auth : Bool := false
deriving DecidableEq

/-- The structured 401 payload of both fail-closed branches
(P2PHttp.cpp lines 124-131 and 156-163). -/
def unauthorizedPayload : JVal :=
  .jobj [("ok", .jbool false), ("error", .jstr "unauthorized"),
         ("hint", .jstr "auth required")]

/-- `legacy_auth_or_401` (lines 117-136): with no legacy hook configured,
write the 401 envelope and answer false; otherwise defer to the hook. -/
def legacy_auth_or_401 (opt : P2PHttpOptions) (req : Request)
    (res : ResponseState) : Bool × ResponseState :=
  match opt.auth_legacy with
  | none => (false, { res with status := 401, body := some unauthorizedPayload })
  | some hook => hook req res

/-- The context auth middleware of `install_route_middlewares`
(lines 152-172): with no context hook, write the 401 envelope and do not
call `next`; otherwise call the hook and continue only on success. -/
def auth_ctx_middleware (opt : P2PHttpOptions)
    (next : Request → ResponseState → ResponseState)
    (req : Request) (res : ResponseState) : ResponseState :=
  match opt.auth_ctx with
  | none => { res with status := 401, body := some unauthorizedPayload }
  | some hook =>
    let r := hook req res
    if r.1 then next req r.2 else r.2

/-- The heavy-tag middleware (lines 175-179): add the marker header and
continue. -/
def heavy_ctx_middleware (next : Request → ResponseState → ResponseState)
    (req : Request) (res : ResponseState) : ResponseState :=
  next req { res with headers := res.headers ++ [("x-vix-route-heavy", "1")] }

/-- `install_route_middlewares` (lines 140-195): the middleware chain
wrapped around a handler according to the route flags. -/
def install_route_middlewares (opt : P2PHttpOptions) (ro : RouteOptions)
    (next : Request → ResponseState → ResponseState) :
    Request → ResponseState → ResponseState :=
  if ro.require_auth && ro.heavy then
    auth_ctx_middleware opt (heavy_ctx_middleware next)
  else if ro.require_auth then
    auth_ctx_middleware opt next
  else if ro.heavy then
    heavy_ctx_middleware next
  else next

/-- The 501 placeholder payload of the admin handler (lines 516-521). -/
def notImplementedPayload : JVal :=
  .jobj [("ok", .jbool false), ("status", .jint 501),
         ("error", .jstr "not_implemented"),
         ("message", .jstr "p2p_http: admin endpoint planned")]

/-- The admin/hook handler in the build without the middleware adapter
(lines 502-521): inline legacy gate, early return on failure, heavy
header, then the 501 envelope. -/
def adminHandlerLegacy (opt : P2PHttpOptions) (ro : RouteOptions)
    (req : Request) (res : ResponseState) : ResponseState :=
  let gate := if ro.require_auth then legacy_auth_or_401 opt req res else (true, res)
  if gate.1 = false then gate.2
  else
    let res2 :=
      if ro.heavy then
        { gate.2 with headers := gate.2.headers ++ [("x-vix-route-heavy", "1")] }
      else gate.2
    { res2 with status := 501, body := some notImplementedPayload }

inductive HttpMethod where
  | GET
  | POST
deriving DecidableEq

/-- One route registration performed by `registerRoutes`: verb, full path
and the per-route flags handed to the middleware layer. -/
structure RegisteredRoute where
  method : HttpMethod
  path : List Char
  ro : RouteOptions
deriving DecidableEq

/-- `const std::string base = (opt.prefix.empty() ? "/p2p" : opt.prefix)`
(line 203). -/
def routeBase (opt : P2PHttpOptions) : List Char :=
  if opt.prefix_str = [] then ['/', 'p', '2', 'p'] else opt.prefix_str

/-- The registration sequence of `registerRoutes` (lines 199-527): ping,
status, peers and logs are conditional on their enable flags and carry no
route flags; the admin hook registration is unconditional with heavy and
require_auth set. -/
def registerRoutes (opt : P2PHttpOptions) : List RegisteredRoute :=
  let base := routeBase opt
  (if opt.enable_ping then
      [⟨.GET, join_prefix_path base "/ping".data, ⟨false, false⟩⟩] else [])
    ++ (if opt.enable_status then
      [⟨.GET, join_prefix_path base "/status".data, ⟨false, false⟩⟩] else [])
    ++ (if opt.enable_peers then
      [⟨.GET, join_prefix_path base "/peers".data, ⟨false, false⟩⟩] else [])
    ++ (if opt.enable_logs then
      [⟨.GET, join_prefix_path base "/logs".data, ⟨false, false⟩⟩] else [])
    ++ [⟨.POST, join_prefix_path base "/admin/hook".data, ⟨true, true⟩⟩]

/-- C1: with no authorization strategy configured (neither hook), a
require_auth route answers 401 with the unauthorized envelope under both
builds, the context middleware never calls the downstream continuation,
and the legacy admin handler never reaches its business logic. -/
theorem auth_fail_closed (opt : P2PHttpOptions) (req : Request)
    (res : ResponseState) (hctx : opt.auth_ctx = none)
    (hleg : opt.auth_legacy = none) :
    (∀ next : Request → ResponseState → ResponseState,
      auth_ctx_middleware opt next req res
        = { res with status := 401, body := some unauthorizedPayload }) ∧
    legacy_auth_or_401 opt req res
      = (false, { res with status := 401, body := some unauthorizedPayload }) ∧
    (∀ ro : RouteOptions, ro.require_auth = true →
      adminHandlerLegacy opt ro req res
        = { res with status := 401, body := some unauthorizedPayload }) := by
  refine ⟨?_, ?_, ?_⟩
  · intro next
    simp [auth_ctx_middleware, hctx]
  · simp [legacy_auth_or_401, hleg]
  · intro ro hro
    simp [adminHandlerLegacy, legacy_auth_or_401, hleg, hro]

/-- Witness for C1: default options configure no strategy; the context
middleware rejects with the 401 envelope for an identity continuation. -/
theorem auth_fail_closed_witness :
    auth_ctx_middleware {} (fun _ r => r) ⟨⟩ {}
      = { ({} : ResponseState) with
          status := 401, body := some unauthorizedPayload } :=
  (auth_fail_closed {} ⟨⟩ {} rfl rfl).1 (fun _ r => r)

/-- C10: for every option value the POST admin/hook route is registered
with heavy and require_auth set — it is the only route carrying
require_auth and no flag disables it — and once the legacy gate passes the
handler answers 501 with the not_implemented envelope (plus the heavy
header). -/
theorem admin_route_always_registered (opt : P2PHttpOptions)
    (hook : AuthHookLegacy) (req : Request) (res res' : ResponseState)
    (hleg : opt.auth_legacy = some hook)
    (hpass : hook req res = (true, res')) :
    (⟨.POST, join_prefix_path (routeBase opt) "/admin/hook".data,
        ⟨true, true⟩⟩ : RegisteredRoute) ∈ registerRoutes opt ∧
    (registerRoutes opt).filter (fun r => r.ro.require_auth)
      = [⟨.POST, join_prefix_path (routeBase opt) "/admin/hook".data,
          ⟨true, true⟩⟩] ∧
    adminHandlerLegacy opt ⟨true, true⟩ req res
      = { status := 501, body := some notImplementedPayload,
          headers := res'.headers ++ [("x-vix-route-heavy", "1")] } := by
  refine ⟨?_, ?_, ?_⟩
  · simp [registerRoutes]
  · obtain ⟨pre, ping, status, logs, live, ms, peers, actx, aleg⟩ := opt
    cases ping <;> cases status <;> cases peers <;> cases logs <;>
      simp [registerRoutes, List.filter]
  · simp [adminHandlerLegacy, legacy_auth_or_401, hleg, hpass]

/-- Witness for C10: options whose legacy hook approves every request. -/
theorem admin_route_always_registered_witness :
    (⟨.POST, join_prefix_path
        (routeBase { auth_legacy := some (fun _ r => (true, r)) })
        "/admin/hook".data, ⟨true, true⟩⟩ : RegisteredRoute)
      ∈ registerRoutes { auth_legacy := some (fun _ r => (true, r)) } ∧
    adminHandlerLegacy { auth_legacy := some (fun _ r => (true, r)) }
        ⟨true, true⟩ ⟨⟩ {}
      = { status := 501, body := some notImplementedPayload,
          headers := ([] : List (String × String))
            ++ [("x-vix-route-heavy", "1")] } := by
  have h := admin_route_always_registered
    { auth_legacy := some (fun _ r => (true, r)) }
    (fun _ r => (true, r)) ⟨⟩ {} {} rfl rfl
  exact ⟨h.1, h.2.2⟩

/-! ## Peer snapshot serialization (P2PHttp.cpp lines 305-459)

The peer model mirrors exactly the fields of vix::p2p read by the
serializer: state enum, optional endpoint, optional handshake, and the
meta block. Key and capability containers are byte / string lists whose
only rendered aspect is their size. Steady-clock instants are integer
millisecond counts with 0 meaning never set. -/

inductive PeerState where
  | Disconnected
  | Connecting
  | Handshaking
  | Connected
  | Stale
  | Closed
deriving DecidableEq

inductive HandshakeStage where
  | None
  | HelloSent
  | HelloReceived
  | AckSent
  | AckReceived
  | Finished
deriving DecidableEq

structure PeerEndpoint where
  scheme : String
  host : String
  port : Nat
deriving DecidableEq

structure HandshakeState where
  stage : HandshakeStage
  started_at : Int
  nonce_a : Nat
  nonce_b : Nat
  ts_ms : Nat
deriving DecidableEq

structure PeerMeta where
  last_seen : Int
  secure : Bool
  public_key : List Nat
  session_key_32 : List Nat
  capabilities : List String
deriving DecidableEq

structure Peer where
  state : PeerState
  endpoint : Option PeerEndpoint
  handshake : Option HandshakeState
  meta : PeerMeta
deriving DecidableEq

/-- `state_to_string` (lines 336-348); the default branch of the C++
switch is unreachable for in-range enum values. -/
def state_to_string : PeerState → String
  | .Disconnected => "disconnected"
  | .Connecting => "connecting"
  | .Handshaking => "handshaking"
  | .Connected => "connected"
  | .Stale => "stale"
  | .Closed => "closed"

/-- `hs_stage_to_string` (lines 350-362). -/
def hs_stage_to_string : HandshakeStage → String
  | .None => "none"
  | .HelloSent => "hello_sent"
  | .HelloReceived => "hello_received"
  | .AckSent => "ack_sent"
  | .AckReceived => "ack_received"
  | .Finished => "finished"

/-- `endpoint_to_string` (lines 364-371). -/
def endpoint_to_string (ep : Option PeerEndpoint) : String :=
  match ep with
  | none => ""
  | some e =>
    (if e.scheme = "" then "tcp" else e.scheme)
      ++ "://" ++ e.host ++ ":" ++ toString e.port

/-- The per-peer object built in the loop of lines 378-451, fields in
source order. -/
def serializePeer (now : Int) (peer_id : String) (p : Peer) : JVal :=
  let ep_str := endpoint_to_string p.endpoint
  let last_seen_ms_ago : Int :=
    if p.meta.last_seen ≠ 0 then now - p.meta.last_seen else -1
  let public_key_len : Int := p.meta.public_key.length
  let session_key_len : Int := p.meta.session_key_32.length
  let capabilities_count : Int := p.meta.capabilities.length
  let has_hs : Bool := p.handshake.isSome
  let hs_stage : String :=
    match p.handshake with
    | some hs => hs_stage_to_string hs.stage
    | none => "none"
  let hs_age_ms : Int :=
    match p.handshake with
    | some hs => if hs.started_at ≠ 0 then now - hs.started_at else -1
    | none => -1
  let hs_nonce_a : Int :=
    match p.handshake with
    | some hs => hs.nonce_a
    | none => 0
  let hs_nonce_b : Int :=
    match p.handshake with
    | some hs => hs.nonce_b
    | none => 0
  let hs_ts_ms : Int :=
    match p.handshake with
    | some hs => hs.ts_ms
    | none => 0
  let has_ep : Bool := p.endpoint.isSome
  let ep_scheme : String :=
    match p.endpoint with
    | some e => if e.scheme = "" then "tcp" else e.scheme
    | none => ""
  let ep_host : String :=
    match p.endpoint with
    | some e => e.host
    | none => ""
  let ep_port : Int :=
    match p.endpoint with
    | some e => e.port
    | none => 0
  .jobj [("peer_id", .jstr peer_id),
    ("state", .jstr (state_to_string p.state)),
    ("endpoint", .jstr ep_str),
    ("has_endpoint", .jbool has_ep),
    ("scheme", .jstr ep_scheme),
    ("host", .jstr ep_host),
    ("port", .jint ep_port),
    ("secure", .jbool p.meta.secure),
    ("capabilities_count", .jint capabilities_count),
    ("public_key_len", .jint public_key_len),
    ("session_key_len", .jint session_key_len),
    ("last_seen_ms_ago", .jint last_seen_ms_ago),
    ("has_handshake", .jbool has_hs),
    ("handshake_stage", .jstr hs_stage),
    ("handshake_age_ms", .jint hs_age_ms),
    ("nonce_a", .jint hs_nonce_a),
    ("nonce_b", .jint hs_nonce_b),
    ("ts_ms", .jint hs_ts_ms)]

/-- The comparator of the std::sort call at lines 330-334: ascending by
peer identifier. -/
def peerKeyLE (a b : String × Peer) : Prop := a.1 ≤ b.1

instance : DecidableRel peerKeyLE := fun a b =>
  inferInstanceAs (Decidable (a.1 ≤ b.1))

instance : IsTotal (String × Peer) peerKeyLE :=
  ⟨fun a b => le_total a.1 b.1⟩

instance : IsTrans (String × Peer) peerKeyLE :=
  ⟨fun _ _ _ h1 h2 => le_trans h1 h2⟩

/-- Strict version of the key order, used to show that sorting a map
snapshot with distinct keys has a unique result. -/
def peerKeyLT (a b : String × Peer) : Prop := a.1 < b.1

instance : IsAntisymm (String × Peer) peerKeyLT :=
  ⟨fun _ _ h1 h2 => (lt_asymm h1 h2).elim⟩

/-- The stabilising sort of lines 325-334 (std::sort is modelled by any
comparison sort over the same comparator). -/
def sortPeers (snap : List (String × Peer)) : List (String × Peer) :=
  List.insertionSort peerKeyLE snap

/-- The peers array of the response (lines 375-452). -/
def peersArray (now : Int) (snap : List (String × Peer)) : List JVal :=
  (sortPeers snap).map (fun kv => serializePeer now kv.1 kv.2)

/-- The full /p2p/peers response envelope (lines 454-459). -/
def peersResponse (now : Int) (snap : List (String × Peer)) : JVal :=
  .jobj [("ok", .jbool true),
    ("module", .jstr "p2p_http"),
    ("total", .jint (peersArray now snap).length),
    ("peers", .jarr (peersArray now snap))]

/-- Peer identifier as it appears in a serialized peer object. -/
def peerIdOfJson (j : JVal) : String :=
  match j.getField "peer_id" with
  | some (.jstr s) => s
  | _ => ""

theorem peerIdOfJson_serializePeer (now : Int) (k : String) (p : Peer) :
    peerIdOfJson (serializePeer now k p) = k := rfl

theorem sortPeers_sorted (snap : List (String × Peer)) :
    (sortPeers snap).Sorted peerKeyLE :=
  List.sorted_insertionSort peerKeyLE snap

theorem sortPeers_perm (snap : List (String × Peer)) :
    List.Perm (sortPeers snap) snap :=
  List.perm_insertionSort peerKeyLE snap

/-- With pairwise-distinct keys, a key-sorted list is strictly key-sorted. -/
theorem sorted_keyLT_of_nodup (l : List (String × Peer))
    (hs : l.Sorted peerKeyLE) (hn : (l.map Prod.fst).Nodup) :
    l.Sorted peerKeyLT := by
  have hpair : l.Pairwise (fun a b => a.1 ≠ b.1) := List.pairwise_map.mp hn
  exact (hs.and hpair).imp (fun h => lt_of_le_of_ne h.1 h.2)

/-- C2: the serialized peers array is sorted ascending by peer identifier,
and re-serializing the same unordered mapping (any re-enumeration of a
snapshot with distinct peer identifiers) produces identical output. -/
theorem peers_sorted_deterministic (now : Int)
    (snap snap' : List (String × Peer)) (hperm : List.Perm snap snap')
    (hkeys : (snap.map Prod.fst).Nodup) :
    List.Sorted (α := String) (· ≤ ·) ((peersArray now snap).map peerIdOfJson) ∧
    peersArray now snap = peersArray now snap' ∧
    peersResponse now snap = peersResponse now snap' := by
  have hkeys' : (snap'.map Prod.fst).Nodup :=
    ((hperm.map Prod.fst).nodup_iff).mp hkeys
  have hks : ((sortPeers snap).map Prod.fst).Nodup :=
    (((sortPeers_perm snap).map Prod.fst).nodup_iff).mpr hkeys
  have hks' : ((sortPeers snap').map Prod.fst).Nodup :=
    (((sortPeers_perm snap').map Prod.fst).nodup_iff).mpr hkeys'
  have hsortEq : sortPeers snap = sortPeers snap' := by
    refine List.eq_of_perm_of_sorted (r := peerKeyLT)
      ((sortPeers_perm snap).trans (hperm.trans (sortPeers_perm snap').symm))
      (sorted_keyLT_of_nodup _ (sortPeers_sorted snap) hks)
      (sorted_keyLT_of_nodup _ (sortPeers_sorted snap') hks')
  refine ⟨?_, ?_, ?_⟩
  · have hmap : (peersArray now snap).map peerIdOfJson
        = (sortPeers snap).map Prod.fst := by
      simp [peersArray, List.map_map, Function.comp_def, peerIdOfJson_serializePeer]
    rw [hmap]
    exact List.pairwise_map.mpr (sortPeers_sorted snap)
  · rw [peersArray, peersArray, hsortEq]
  · rw [peersResponse, peersResponse, peersArray, peersArray, hsortEq]

/-- A bare peer record used by concrete evaluations. -/
def peerBare : Peer := ⟨.Disconnected, none, none, ⟨0, false, [], [], []⟩⟩

/-- Witness for C2: a two-peer snapshot enumerated in both orders. -/
theorem peers_sorted_deterministic_witness :
    List.Sorted (α := String) (· ≤ ·)
      ((peersArray 0 [("b", peerBare), ("a", peerBare)]).map peerIdOfJson) ∧
    peersArray 0 [("b", peerBare), ("a", peerBare)]
      = peersArray 0 [("a", peerBare), ("b", peerBare)] := by
  have h := peers_sorted_deterministic 0 [("b", peerBare), ("a", peerBare)]
    [("a", peerBare), ("b", peerBare)] (List.Perm.swap _ _ _) (by simp)
  exact ⟨h.1, h.2.1⟩

/-- C6: a peer with no endpoint and no handshake still serializes with the
full fixed field set, at the documented sentinel values. -/
theorem serialize_absent_optional_fields (now : Int) (id : String)
    (st : PeerState) (meta : PeerMeta) (hseen : meta.last_seen = 0) :
    serializePeer now id ⟨st, none, none, meta⟩
      = .jobj [("peer_id", .jstr id),
        ("state", .jstr (state_to_string st)),
        ("endpoint", .jstr ""),
        ("has_endpoint", .jbool false),
        ("scheme", .jstr ""),
        ("host", .jstr ""),
        ("port", .jint 0),
        ("secure", .jbool meta.secure),
        ("capabilities_count", .jint meta.capabilities.length),
        ("public_key_len", .jint meta.public_key.length),
        ("session_key_len", .jint meta.session_key_32.length),
        ("last_seen_ms_ago", .jint (-1)),
        ("has_handshake", .jbool false),
        ("handshake_stage", .jstr "none"),
        ("handshake_age_ms", .jint (-1)),
        ("nonce_a", .jint 0),
        ("nonce_b", .jint 0),
        ("ts_ms", .jint 0)] := by
  simp [serializePeer, endpoint_to_string, hseen]

/-- Witness for C6 on a concrete bare peer. -/
theorem serialize_absent_optional_fields_witness :
    serializePeer 5 "n1" ⟨.Connected, none, none, ⟨0, true, [1, 2], [3], ["relay"]⟩⟩
      = .jobj [("peer_id", .jstr "n1"),
        ("state", .jstr (state_to_string .Connected)),
        ("endpoint", .jstr ""),
        ("has_endpoint", .jbool false),
        ("scheme", .jstr ""),
        ("host", .jstr ""),
        ("port", .jint 0),
        ("secure", .jbool true),
        ("capabilities_count", .jint (["relay"] : List String).length),
        ("public_key_len", .jint ([1, 2] : List Nat).length),
        ("session_key_len", .jint ([3] : List Nat).length),
        ("last_seen_ms_ago", .jint (-1)),
        ("has_handshake", .jbool false),
        ("handshake_stage", .jstr "none"),
        ("handshake_age_ms", .jint (-1)),
        ("nonce_a", .jint 0),
        ("nonce_b", .jint 0),
        ("ts_ms", .jint 0)] :=
  serialize_absent_optional_fields 5 "n1" .Connected ⟨0, true, [1, 2], [3], ["relay"]⟩ rfl

/-- C7: the serialized output exposes only the lengths of the key byte
strings; records differing only in those bytes (lengths preserved)
serialize identically. -/
theorem serialize_secret_free (now : Int) (id : String) (p : Peer)
    (pk sk : List Nat) (hpk : pk.length = p.meta.public_key.length)
    (hsk : sk.length = p.meta.session_key_32.length) :
    serializePeer now id
        { p with meta :=
            { p.meta with public_key := pk, session_key_32 := sk } }
      = serializePeer now id p := by
  simp [serializePeer, hpk, hsk]

/-- Witness for C7: two records with different key bytes of equal
lengths. -/
theorem serialize_secret_free_witness :
    serializePeer 0 "n1"
        { peerBare with meta :=
            { peerBare.meta with public_key := [9], session_key_32 := [8, 7] } }
      = serializePeer 0 "n1"
        { peerBare with meta :=
            { peerBare.meta with public_key := [1], session_key_32 := [2, 3] } } :=
  serialize_secret_free 0 "n1"
    { peerBare with meta :=
        { peerBare.meta with public_key := [1], session_key_32 := [2, 3] } }
    [9] [8, 7] rfl rfl

end P2PHttp
